import Mathlib

/-!
Shallow embedding of the streaming multiclass logistic-regression notebook
(2014-10-10-Classifying_Wikipedia_Changes.ipynb): the online length
statistics, the hashed sparse features, the per-label predict and update
steps of the trainer, and the evaluation confusion matrix.  Machine floats
are modelled as real numbers.
-/

noncomputable section

/-- Number of dense features (bias term and normalized length). -/
def D : ℕ := 2

/-- Number of sparsely encoded features. -/
def D_sparse : ℕ := 2 ^ 18

/-- Number of labels (bot, minor, new). -/
def K : ℕ := 3

/-- The function get_length_statistics of the notebook: receives a count n, the running mean
and M2, increments the count itself, and returns the new mean, the sample
standard deviation (0 when the incremented count is below 2), and the new M2. -/
def get_length_statistics (length : ℝ) (n : ℕ) (mean M2 : ℝ) : ℝ × ℝ × ℝ :=
  let n1 := n + 1
  let delta := length - mean
  let mean1 := mean + delta / (n1 : ℝ)
  let M21 := M2 + delta * (length - mean1)
  if n1 < 2 then (mean1, 0, M21)
  else (mean1, Real.sqrt (M21 / ((n1 : ℝ) - 1)), M21)

/-- The running length statistics of the extractor: count, mean, M2. -/
structure LenState where
  n : ℕ
  mean : ℝ
  M2 : ℝ

/-- Length processing of one observation inside get_data: take the absolute
length difference, increment the running count, call get_length_statistics
with the already incremented count, and produce the normalized length feature
(falling back to the raw length when the returned standard deviation is not
positive). -/
def length_feature_step (st : LenState) (oldlen newlen : ℤ) : LenState × ℝ :=
  let length : ℝ := ((newlen - oldlen).natAbs : ℝ)
  let r := get_length_statistics length (st.n + 1) st.mean st.M2
  let x1 := if r.2.1 > 0 then (length - r.1) / r.2.1 else length
  (⟨st.n + 1, r.1, r.2.2⟩, x1)

/-- The normalized length features produced for a list of signed length deltas,
starting from the given running statistics. -/
def normalized_lengths_from (st : LenState) : List ℤ → List ℝ
  | [] => []
  | d :: ds =>
    let s := length_feature_step st 0 d
    s.2 :: normalized_lengths_from s.1 ds

/-- Normalized length features from fresh statistics (n = 0, mean = 0, M2 = 0). -/
def normalized_lengths (deltas : List ℤ) : List ℝ :=
  normalized_lengths_from ⟨0, 0, 0⟩ deltas

/-- Modelled from the spec: one step of the Welford incremental algorithm exactly
as the spec states it, updating the triple (count, mean, M2) from the previous
count. -/
def welford_step (st : LenState) (length : ℝ) : LenState :=
  let n1 := st.n + 1
  let delta := length - st.mean
  let mean1 := st.mean + delta / (n1 : ℝ)
  ⟨n1, mean1, st.M2 + delta * (length - mean1)⟩

/-- Modelled from the spec: the standard deviation the spec derives from the
running triple, the sample standard deviation for count at least 2, else 0. -/
def welford_std (st : LenState) : ℝ :=
  if 2 ≤ st.n then Real.sqrt (st.M2 / ((st.n : ℝ) - 1)) else 0

/-- Dot product computed by predict: dense weights times dense features plus
the sparse weight at every index occurring in the sparse index list. -/
def wTx (w : List ℝ) (w_sparse : ℕ → ℝ) (x : List ℝ) (x_sparse : List ℕ) : ℝ :=
  (List.zipWith (fun wi xi => wi * xi) w x).sum + (x_sparse.map w_sparse).sum

/-- Modelled from the spec: the dot product with each distinct sparse index
counted exactly once. -/
def wTx_distinct (w : List ℝ) (w_sparse : ℕ → ℝ) (x : List ℝ) (x_sparse : List ℕ) : ℝ :=
  (List.zipWith (fun wi xi => wi * xi) w x).sum + (x_sparse.dedup.map w_sparse).sum

/-- The clipping of the dot product performed in predict. -/
def clip (z : ℝ) : ℝ := min (max z (-100)) 100

/-- The logistic function applied in predict. -/
def sigmoid (z : ℝ) : ℝ := 1 / (1 + Real.exp (-z))

/-- The predict function of the notebook: the probability that the label is 1, the logistic
function of the clipped dot product. -/
def predict (w : List ℝ) (w_sparse : ℕ → ℝ) (x : List ℝ) (x_sparse : List ℕ) : ℝ :=
  sigmoid (clip (wTx w w_sparse x x_sparse))

/-- The dense part of the update function of the notebook: each position covered by the
feature list moves by (y - p) * alpha * feature, the rest of the weight list is
kept unchanged. -/
def update_dense (alpha : ℝ) (w x : List ℝ) (p y : ℝ) : List ℝ :=
  List.zipWith (fun wi xi => wi + (y - p) * alpha * xi) w x ++ w.drop x.length

/-- The sparse part of the update function of the notebook: one in-place increment by
(y - p) * alpha per entry of the sparse index list. -/
def update_sparse (alpha : ℝ) (w_sparse : ℕ → ℝ) (x_sparse : List ℕ) (p y : ℝ) :
    ℕ → ℝ :=
  x_sparse.foldl (fun acc i => Function.update acc i (acc i + (y - p) * alpha)) w_sparse

/-- One predict-then-update call of the training loop for label k: only the
k-th dense and sparse weight vectors are replaced. -/
def train_label (alpha : ℝ) (W : Fin 3 → List ℝ) (Ws : Fin 3 → ℕ → ℝ)
    (x : List ℝ) (x_sparse : List ℕ) (y : Fin 3 → ℝ) (k : Fin 3) :
    (Fin 3 → List ℝ) × (Fin 3 → ℕ → ℝ) :=
  let p := predict (W k) (Ws k) x x_sparse
  (Function.update W k (update_dense alpha (W k) x p (y k)),
   Function.update Ws k (update_sparse alpha (Ws k) x_sparse p (y k)))

/-- Repeated update calls on the weights of one label, one call per list entry
(dense features, sparse indices, prediction, target). -/
def run_updates (alpha : ℝ) (w : List ℝ) (w_sparse : ℕ → ℝ) :
    List (List ℝ × List ℕ × ℝ × ℝ) → List ℝ × (ℕ → ℝ)
  | [] => (w, w_sparse)
  | s :: rest =>
      run_updates alpha (update_dense alpha w s.1 s.2.2.1 s.2.2.2)
        (update_sparse alpha w_sparse s.2.1 s.2.2.1 s.2.2.2) rest

/-- The sparse feature index of one tagged string: absolute hash modulo
D_sparse.  The ambient string hash function is passed in explicitly. -/
def sparse_index (hash : String → ℤ) (tag s : String) : ℕ :=
  (hash (tag ++ s)).natAbs % D_sparse

/-- The three sparse indices extracted for one observation. -/
def x_sparse_of (hash : String → ℤ) (comment user title : String) : List ℕ :=
  [sparse_index hash "comment_" comment,
   sparse_index hash "username_" user,
   sparse_index hash "title_" title]

/-- The threshold of the evaluator: predicted bit 1 exactly when the probability
exceeds one half. -/
def threshold (p : ℝ) : Fin 2 := if p > 0.5 then 1 else 0

/-- The index of a 3-bit label tuple in the fixed lexicographic enumeration of
(bot, minor, new) used for the confusion matrix. -/
def class_index (t : Fin 2 × Fin 2 × Fin 2) : Fin 8 :=
  ⟨4 * t.1.val + 2 * t.2.1.val + t.2.2.val, by
    have h1 := t.1.isLt
    have h2 := t.2.1.isLt
    have h3 := t.2.2.isLt
    omega⟩

/-- Incrementing the one confusion matrix cell at (actual, predicted). -/
def eval_step (M : Fin 8 → Fin 8 → ℕ) (actual predicted : Fin 2 × Fin 2 × Fin 2) :
    Fin 8 → Fin 8 → ℕ :=
  Function.update M (class_index actual)
    (Function.update (M (class_index actual)) (class_index predicted)
      (M (class_index actual) (class_index predicted) + 1))

/-- The predicted 3-bit tuple for one observation: one thresholded predict per
label. -/
def predicted_tuple (W : Fin 3 → List ℝ) (Ws : Fin 3 → ℕ → ℝ)
    (x : List ℝ) (x_sparse : List ℕ) : Fin 2 × Fin 2 × Fin 2 :=
  (threshold (predict (W 0) (Ws 0) x x_sparse),
   threshold (predict (W 1) (Ws 1) x x_sparse),
   threshold (predict (W 2) (Ws 2) x x_sparse))

/-- The evaluation loop over a batch: for each observation (actual tuple, dense
features, sparse indices), increment the cell of its actual and predicted
tuples. -/
def eval_loop (W : Fin 3 → List ℝ) (Ws : Fin 3 → ℕ → ℝ)
    (M : Fin 8 → Fin 8 → ℕ) :
    List ((Fin 2 × Fin 2 × Fin 2) × List ℝ × List ℕ) → Fin 8 → Fin 8 → ℕ
  | [] => M
  | ob :: rest =>
      eval_loop W Ws (eval_step M ob.1 (predicted_tuple W Ws ob.2.1 ob.2.2)) rest

/-- The total count over all confusion matrix cells. -/
def matrix_total (M : Fin 8 → Fin 8 → ℕ) : ℕ := ∑ i, ∑ j, M i j

/-- The zero-initialized confusion matrix. -/
def zero_matrix : Fin 8 → Fin 8 → ℕ := fun _ _ => 0

/-- A sparse weight vector holding 1 at index 0 and 0 elsewhere, used as a
concrete weight configuration. -/
def ws_one_at_zero : ℕ → ℝ := fun i => if i = 0 then 1 else 0

/-- Helper: unfolding of the dense update on a cons cell. -/
theorem update_dense_cons (alpha w0 x0 : ℝ) (w x : List ℝ) (p y : ℝ) :
    update_dense alpha (w0 :: w) (x0 :: x) p y =
      (w0 + (y - p) * alpha * x0) :: update_dense alpha w x p y := rfl

/-- Helper: the dense update with learning rate zero is the identity. -/
theorem update_dense_zero_alpha (w x : List ℝ) (p y : ℝ) :
    update_dense 0 w x p y = w := by
  induction w generalizing x with
  | nil => simp [update_dense]
  | cons w0 w' ih =>
    cases x with
    | nil => simp [update_dense]
    | cons x0 x' => simp [update_dense_cons, ih x']

/-- Helper: the sparse update with learning rate zero is the identity. -/
theorem update_sparse_zero_alpha (ws : ℕ → ℝ) (xs : List ℕ) (p y : ℝ) :
    update_sparse 0 ws xs p y = ws := by
  induction xs generalizing ws with
  | nil => rfl
  | cons a l ih =>
    simp only [update_sparse, List.foldl_cons]
    have h : Function.update ws a (ws a + (y - p) * 0) = ws := by
      rw [mul_zero, add_zero, Function.update_eq_self]
    rw [h]
    exact ih ws

/-- Helper: zero dense weights make the dense part of the dot product vanish. -/
theorem zip_mul_replicate_zero_sum (n : ℕ) (x : List ℝ) :
    (List.zipWith (fun wi xi => wi * xi) (List.replicate n (0 : ℝ)) x).sum = 0 := by
  induction n generalizing x with
  | zero => simp
  | succ m ih =>
    cases x with
    | nil => simp
    | cons x0 x' => simp [List.replicate_succ, ih x']

/-- Helper: predict on all-zero weights returns one half for every input. -/
theorem predict_zero_weights (x : List ℝ) (xs : List ℕ) :
    predict (List.replicate D 0) (fun _ => 0) x xs = 1 / 2 := by
  have h : wTx (List.replicate D 0) (fun _ => 0) x xs = 0 := by
    simp [wTx, zip_mul_replicate_zero_sum]
  have hc : clip 0 = 0 := by
    unfold clip
    rw [max_eq_left (by norm_num : (-100 : ℝ) ≤ 0), min_eq_left (by norm_num : (0 : ℝ) ≤ 100)]
  rw [predict, h, hc, sigmoid, neg_zero, Real.exp_zero]
  norm_num

/-- Claim C2: predict always returns a probability strictly between 0 and 1;
the dot product is clipped to the interval from -100 to 100 before the
logistic function, so a raw dot product at most -100 yields exactly
1 / (1 + exp 100), a raw dot product at least 100 yields exactly
1 / (1 + exp (-100)), and the argument reaching the exponential is always
bounded, leaving no reachable overflow case. -/
theorem predict_in_open_unit_interval (w : List ℝ) (ws : ℕ → ℝ) (x : List ℝ)
    (xs : List ℕ) :
    0 < predict w ws x xs ∧ predict w ws x xs < 1 ∧
    -100 ≤ clip (wTx w ws x xs) ∧ clip (wTx w ws x xs) ≤ 100 ∧
    (wTx w ws x xs ≤ -100 → predict w ws x xs = 1 / (1 + Real.exp 100)) ∧
    (100 ≤ wTx w ws x xs → predict w ws x xs = 1 / (1 + Real.exp (-100))) := by
  have hden : ∀ z : ℝ, (0 : ℝ) < 1 + Real.exp z := fun z => by
    have := Real.exp_pos z
    linarith
  refine ⟨?_, ?_, ?_, ?_, ?_, ?_⟩
  · rw [predict, sigmoid]
    exact div_pos one_pos (hden _)
  · rw [predict, sigmoid]
    rw [div_lt_one (hden _)]
    have := Real.exp_pos (-(clip (wTx w ws x xs)))
    linarith
  · exact le_min (le_max_right _ _) (by norm_num)
  · exact min_le_right _ _
  · intro hle
    rw [predict, clip, max_eq_right hle, min_eq_left (by norm_num : (-100 : ℝ) ≤ 100),
      sigmoid, neg_neg]
  · intro hge
    rw [predict, clip, max_eq_left (le_trans (by norm_num) hge), min_eq_right hge, sigmoid]

/-- Claim C2 witness: a concrete input with raw dot product 200 saturates at
1 / (1 + exp (-100)). -/
theorem predict_in_open_unit_interval_witness :
    100 ≤ wTx [200] (fun _ => 0) [1] [] ∧
    predict [200] (fun _ => 0) [1] [] = 1 / (1 + Real.exp (-100)) := by
  have h : wTx [200] (fun _ => (0 : ℝ)) [1] [] = 200 := by
    simp [wTx]
  exact ⟨by rw [h]; norm_num,
    (predict_in_open_unit_interval [200] (fun _ => 0) [1] []).2.2.2.2.2 (by rw [h]; norm_num)⟩

/-- Claim C7: with learning rate 0, any number of update calls leaves the dense
and sparse weights unchanged, and with all-zero weights predict returns exactly
one half for every feature vector. -/
theorem zero_alpha_noop_and_zero_weights_half (w : List ℝ) (ws : ℕ → ℝ)
    (steps : List (List ℝ × List ℕ × ℝ × ℝ)) (x : List ℝ) (xs : List ℕ) :
    run_updates 0 w ws steps = (w, ws) ∧
    predict (List.replicate D 0) (fun _ => 0) x xs = 1 / 2 := by
  refine ⟨?_, predict_zero_weights x xs⟩
  induction steps generalizing w ws with
  | nil => rfl
  | cons s rest ih =>
    rw [run_updates, update_dense_zero_alpha, update_sparse_zero_alpha]
    exact ih w ws

/-- Claim C8: the sparse feature index of a tagged string is a deterministic
function of the string (the same computation twice gives the same index) and
always lies strictly below D_sparse, which is 2 to the 18. -/
theorem sparse_index_deterministic_and_in_range (hash : String → ℤ)
    (tag s : String) :
    sparse_index hash tag s = sparse_index hash tag s ∧
    sparse_index hash tag s < D_sparse ∧ D_sparse = 2 ^ 18 := by
  refine ⟨rfl, ?_, rfl⟩
  exact Nat.mod_lt _ (by norm_num [D_sparse])

/-- Claim C10: the evaluator threshold is strict: the predicted bit is 1
exactly when the probability strictly exceeds one half, so the probability one
half produced by all-zero weights yields predicted bit 0. -/
theorem threshold_strict (p : ℝ) (x : List ℝ) (xs : List ℕ) :
    (threshold p = 1 ↔ 0.5 < p) ∧ threshold (0.5 : ℝ) = 0 ∧
    threshold (predict (List.replicate D 0) (fun _ => 0) x xs) = 0 := by
  refine ⟨?_, ?_, ?_⟩
  · unfold threshold
    by_cases h : (0.5 : ℝ) < p
    · simp [h]
    · simp [h]
  · unfold threshold
    norm_num
  · rw [predict_zero_weights]
    unfold threshold
    norm_num

/-- Helper: entry i of the dense update, for positions covered by both lists. -/
theorem update_dense_getD (alpha : ℝ) (w x : List ℝ) (p y : ℝ) (i : ℕ)
    (hx : i < x.length) (hw : i < w.length) :
    (update_dense alpha w x p y).getD i 0 =
      w.getD i 0 + (y - p) * alpha * x.getD i 0 := by
  induction w generalizing x i with
  | nil => simp at hw
  | cons w0 w' ih =>
    cases x with
    | nil => simp at hx
    | cons x0 x' =>
      cases i with
      | zero => simp [update_dense_cons]
      | succ j =>
        simp only [update_dense_cons, List.getD_cons_succ]
        exact ih x' j (by simpa using hx) (by simpa using hw)

/-- Helper: entries beyond the feature list are unchanged by the dense update. -/
theorem update_dense_getD_frame (alpha : ℝ) (w x : List ℝ) (p y : ℝ) (i : ℕ)
    (hx : x.length ≤ i) :
    (update_dense alpha w x p y).getD i 0 = w.getD i 0 := by
  induction w generalizing x i with
  | nil => simp [update_dense]
  | cons w0 w' ih =>
    cases x with
    | nil => simp [update_dense]
    | cons x0 x' =>
      cases i with
      | zero => simp at hx
      | succ j =>
        simp only [update_dense_cons, List.getD_cons_succ]
        exact ih x' j (by simpa using hx)

/-- Helper: the sparse update moves each index by its number of occurrences in
the sparse index list times the common increment. -/
theorem update_sparse_apply (alpha : ℝ) (ws : ℕ → ℝ) (xs : List ℕ) (p y : ℝ)
    (idx : ℕ) :
    update_sparse alpha ws xs p y idx =
      ws idx + (xs.count idx : ℝ) * ((y - p) * alpha) := by
  induction xs generalizing ws with
  | nil => simp [update_sparse]
  | cons a l ih =>
    simp only [update_sparse, List.foldl_cons] at ih ⊢
    rw [ih, Function.update_apply]
    by_cases h : idx = a
    · subst h
      rw [if_pos rfl, List.count_cons_self]
      push_cast
      ring
    · rw [if_neg h, List.count_cons_of_ne h]

/-- Claim C5: one update call adds alpha * (y - p) * x[i] to each dense weight
position covered by the feature list, adds alpha * (y - p) to the sparse
weight once per occurrence of an index in the sparse index list, and changes
no other weight entries. -/
theorem update_effect (alpha : ℝ) (w : List ℝ) (ws : ℕ → ℝ) (x : List ℝ)
    (xs : List ℕ) (p y : ℝ) :
    (∀ i, i < x.length → i < w.length →
       (update_dense alpha w x p y).getD i 0 =
         w.getD i 0 + (y - p) * alpha * x.getD i 0) ∧
    (∀ i, x.length ≤ i → (update_dense alpha w x p y).getD i 0 = w.getD i 0) ∧
    (∀ idx, update_sparse alpha ws xs p y idx =
       ws idx + (xs.count idx : ℝ) * ((y - p) * alpha)) ∧
    (∀ idx, idx ∉ xs → update_sparse alpha ws xs p y idx = ws idx) := by
  refine ⟨fun i hx hw => update_dense_getD alpha w x p y i hx hw,
    fun i hx => update_dense_getD_frame alpha w x p y i hx,
    fun idx => update_sparse_apply alpha ws xs p y idx,
    fun idx h => ?_⟩
  rw [update_sparse_apply]
  rw [List.count_eq_zero_of_not_mem h]
  simp

/-- Claim C5 witness: concrete one-step update on dense position 0 and on a
sparse index occurring once. -/
theorem update_effect_witness :
    (update_dense 1 [10, 20] [3, 4] 0 1).getD 0 0 =
      ([10, 20] : List ℝ).getD 0 0 + (1 - 0) * 1 * (([3, 4] : List ℝ).getD 0 0) ∧
    update_sparse 1 (fun _ => 0) [5] 0 1 5 =
      (fun _ => (0 : ℝ)) 5 + ((([5] : List ℕ).count 5 : ℕ) : ℝ) * ((1 - 0) * 1) := by
  exact ⟨(update_effect 1 [10, 20] (fun _ => 0) [3, 4] [5] 0 1).1 0 (by norm_num) (by norm_num),
    (update_effect 1 [10, 20] (fun _ => 0) [3, 4] [5] 0 1).2.2.1 5⟩

/-- Claim C6: one predict-then-update call for label k leaves the dense and
sparse weight vectors of every other label unchanged, and the resulting
weights of label k depend only on the weights and target value of label k
itself. -/
theorem train_label_frame (alpha : ℝ) (W W' : Fin 3 → List ℝ)
    (Ws Ws' : Fin 3 → ℕ → ℝ) (x : List ℝ) (xs : List ℕ) (y y' : Fin 3 → ℝ)
    (k j : Fin 3) :
    (j ≠ k → (train_label alpha W Ws x xs y k).1 j = W j ∧
             (train_label alpha W Ws x xs y k).2 j = Ws j) ∧
    (W' k = W k → Ws' k = Ws k → y' k = y k →
       (train_label alpha W' Ws' x xs y' k).1 k = (train_label alpha W Ws x xs y k).1 k ∧
       (train_label alpha W' Ws' x xs y' k).2 k = (train_label alpha W Ws x xs y k).2 k) := by
  constructor
  · intro hjk
    exact ⟨Function.update_noteq hjk _ _, Function.update_noteq hjk _ _⟩
  · intro h1 h2 h3
    simp only [train_label, Function.update_same]
    rw [h1, h2, h3]
    exact ⟨rfl, rfl⟩

/-- Claim C6 witness: a concrete training call for label 0 leaves the weights
of label 1 untouched. -/
theorem train_label_frame_witness :
    (train_label 1 (fun _ => [0]) (fun _ _ => 0) [1] [2] (fun _ => 1) 0).1 1 = [0] ∧
    (train_label 1 (fun _ => [0]) (fun _ _ => 0) [1] [2] (fun _ => 1) 0).2 1 =
      (fun _ => (0 : ℝ)) := by
  exact (train_label_frame 1 (fun _ => [0]) (fun _ => [0]) (fun _ _ => 0)
    (fun _ _ => 0) [1] [2] (fun _ => 1) (fun _ => 1) 0 1).1 (by decide)

/-- Claim C3 counterexample: with the sparse weight vector that is 1 at index 0
and 0 elsewhere, zero dense weights, and a sparse index list in which index 0
occurs three times (all three tagged strings hashing to the same index), the
dot product of predict counts the weight three times, while the claimed
distinct-once dot product is 1. -/
theorem wTx_collision_counterexample :
    wTx [0, 0] ws_one_at_zero [1, 0] [0, 0, 0] = 3 ∧
    wTx_distinct [0, 0] ws_one_at_zero [1, 0] [0, 0, 0] = 1 ∧
    (3 : ℝ) ≠ 1 := by
  refine ⟨?_, ?_, by norm_num⟩
  · simp [wTx, ws_one_at_zero]
    norm_num
  · have hd : ([0, 0, 0] : List ℕ).dedup = [0] := by decide
    simp [wTx_distinct, hd, ws_one_at_zero]

/-- Claim C3 amended: the dot product of predict is the dense sum plus each
sparse weight counted once per occurrence of its index in the sparse index
list; when the indices are pairwise distinct this is exactly once per distinct
index, as the original claim states. -/
theorem wTx_multiplicity (w : List ℝ) (ws : ℕ → ℝ) (x : List ℝ)
    (xs : List ℕ) :
    wTx w ws x xs =
      (List.zipWith (fun wi xi => wi * xi) w x).sum +
        ∑ i ∈ xs.toFinset, (xs.count i : ℝ) * ws i ∧
    (xs.Nodup → wTx w ws x xs = wTx_distinct w ws x xs) := by
  constructor
  · rw [wTx, Finset.sum_list_map_count]
    simp [nsmul_eq_mul]
  · intro h
    rw [wTx, wTx_distinct, List.Nodup.dedup h]

/-- Claim C3 amended witness: with pairwise distinct indices the two dot
products agree at a concrete input. -/
theorem wTx_multiplicity_witness :
    wTx [1] ws_one_at_zero [1] [1, 2, 3] = wTx_distinct [1] ws_one_at_zero [1] [1, 2, 3] :=
  (wTx_multiplicity [1] ws_one_at_zero [1] [1, 2, 3]).2 (by decide)

/-- Helper: pointwise description of one confusion matrix increment. -/
theorem eval_step_apply (M : Fin 8 → Fin 8 → ℕ) (a q : Fin 2 × Fin 2 × Fin 2)
    (i j : Fin 8) :
    eval_step M a q i j =
      M i j + if i = class_index a ∧ j = class_index q then 1 else 0 := by
  unfold eval_step
  rcases eq_or_ne i (class_index a) with hi | hi
  · subst hi
    rw [Function.update_same]
    rcases eq_or_ne j (class_index q) with hj | hj
    · subst hj
      rw [Function.update_same]
      simp
    · rw [Function.update_noteq hj]
      simp [hj]
  · rw [Function.update_noteq hi]
    simp [hi]

/-- Helper: one confusion matrix increment raises the total by exactly one. -/
theorem matrix_total_eval_step (M : Fin 8 → Fin 8 → ℕ)
    (a q : Fin 2 × Fin 2 × Fin 2) :
    matrix_total (eval_step M a q) = matrix_total M + 1 := by
  unfold matrix_total
  calc (∑ i, ∑ j, eval_step M a q i j)
      = ∑ i, ∑ j, (M i j + if i = class_index a ∧ j = class_index q then 1 else 0) :=
        Finset.sum_congr rfl fun i _ => Finset.sum_congr rfl fun j _ =>
          eval_step_apply M a q i j
    _ = (∑ i, ∑ j, M i j) + 1 := by
        simp [Finset.sum_add_distrib, ite_and, Finset.sum_ite_eq]

/-- Helper: the evaluation loop adds the batch size to the matrix total. -/
theorem matrix_total_eval_loop (W : Fin 3 → List ℝ) (Ws : Fin 3 → ℕ → ℝ)
    (M : Fin 8 → Fin 8 → ℕ)
    (obs : List ((Fin 2 × Fin 2 × Fin 2) × List ℝ × List ℕ)) :
    matrix_total (eval_loop W Ws M obs) = matrix_total M + obs.length := by
  induction obs generalizing M with
  | nil => simp [eval_loop]
  | cons ob rest ih =>
    rw [eval_loop, ih, matrix_total_eval_step, List.length_cons]
    omega

/-- Claim C9: each evaluation observation increments exactly one confusion
matrix cell, the one at the row of its actual tuple and the column of its
predicted tuple under the lexicographic enumeration, and after processing a
batch from the zero matrix the sum over all 64 entries equals the batch size. -/
theorem confusion_matrix_total (M : Fin 8 → Fin 8 → ℕ)
    (a q : Fin 2 × Fin 2 × Fin 2) (W : Fin 3 → List ℝ) (Ws : Fin 3 → ℕ → ℝ)
    (obs : List ((Fin 2 × Fin 2 × Fin 2) × List ℝ × List ℕ)) :
    (∀ i j, eval_step M a q i j =
       M i j + if i = class_index a ∧ j = class_index q then 1 else 0) ∧
    matrix_total (eval_step M a q) = matrix_total M + 1 ∧
    matrix_total (eval_loop W Ws zero_matrix obs) = obs.length := by
  refine ⟨eval_step_apply M a q, matrix_total_eval_step M a q, ?_⟩
  rw [matrix_total_eval_loop]
  simp [matrix_total, zero_matrix]

/-- Helper: the square root of 50 in closed form. -/
theorem sqrt_fifty : Real.sqrt 50 = 5 * Real.sqrt 2 := by
  rw [show (50 : ℝ) = 25 * 2 by norm_num,
    Real.sqrt_mul (by norm_num : (0 : ℝ) ≤ 25),
    show Real.sqrt 25 = 5 by
      rw [show (25 : ℝ) = 5 ^ 2 by norm_num, Real.sqrt_sq (by norm_num : (0 : ℝ) ≤ 5)]]

/-- Helper: the square root of 100 / 3 in closed form. -/
theorem sqrt_hundred_thirds : Real.sqrt (100 / 3) = 10 / Real.sqrt 3 := by
  rw [Real.sqrt_div (by norm_num : (0 : ℝ) ≤ 100) 3,
    show Real.sqrt 100 = 10 by
      rw [show (100 : ℝ) = 10 ^ 2 by norm_num, Real.sqrt_sq (by norm_num : (0 : ℝ) ≤ 10)]]

/-- Helper: half the square root of two is not ten. -/
theorem sqrt_two_half_ne_ten : Real.sqrt 2 / 2 ≠ 10 := by
  intro h
  have h2 : Real.sqrt 2 = 20 := by linarith
  have hsq := Real.sq_sqrt (show (0 : ℝ) ≤ 2 by norm_num)
  rw [h2] at hsq
  norm_num at hsq

/-- Helper: the first get_length_statistics call of the run, as get_data makes
it: count already incremented to 1 outside, incremented again inside. -/
theorem gls_one : get_length_statistics 10 1 0 0 = (5, Real.sqrt 50, 50) := by
  unfold get_length_statistics
  norm_num

/-- Helper: the second get_length_statistics call of the run. -/
theorem gls_two :
    get_length_statistics 10 2 5 50 = (20 / 3, Real.sqrt (100 / 3), 200 / 3) := by
  unfold get_length_statistics
  norm_num

/-- Helper: the third get_length_statistics call of the run. -/
theorem gls_three :
    get_length_statistics 0 3 (20 / 3) (200 / 3) = (5, Real.sqrt (100 / 3), 100) := by
  unfold get_length_statistics
  norm_num

/-- Helper: the first extractor step on length delta 10 from fresh statistics. -/
theorem step_one :
    length_feature_step ⟨0, 0, 0⟩ 0 10 = (⟨1, 5, 50⟩, Real.sqrt 2 / 2) := by
  unfold length_feature_step
  norm_num [gls_one]
  rw [sqrt_fifty, div_mul_eq_div_div]
  norm_num
  rw [inv_eq_one_div, ← Real.sqrt_div_self']

/-- Helper: the second extractor step, on length delta -10. -/
theorem step_two :
    length_feature_step ⟨1, 5, 50⟩ 0 (-10) = (⟨2, 20 / 3, 200 / 3⟩, Real.sqrt 3 / 3) := by
  unfold length_feature_step
  norm_num [gls_two]
  rw [show Real.sqrt 100 = 10 by
    rw [show (100 : ℝ) = 10 ^ 2 by norm_num, Real.sqrt_sq (by norm_num : (0 : ℝ) ≤ 10)]]
  rw [div_div_eq_mul_div]
  ring

/-- Helper: the third extractor step, on length delta 0. -/
theorem step_three :
    length_feature_step ⟨2, 20 / 3, 200 / 3⟩ 0 0 = (⟨3, 5, 100⟩, -(Real.sqrt 3 / 2)) := by
  unfold length_feature_step
  norm_num [gls_three]
  rw [show Real.sqrt 100 = 10 by
    rw [show (100 : ℝ) = 10 ^ 2 by norm_num, Real.sqrt_sq (by norm_num : (0 : ℝ) ≤ 10)]]
  rw [div_div_eq_mul_div]
  ring

/-- Claim C1 (code bug): get_data increments the running count before calling
get_length_statistics, which increments it again, so the maintained triple is
not the Welford triple.  On the first observation with length delta 10 from
fresh statistics the code produces mean 5 and normalized feature
sqrt 2 / 2, while one Welford step as specified produces mean 10, standard
deviation 0, and hence the raw fallback feature 10. -/
theorem length_statistics_not_welford :
    (length_feature_step ⟨0, 0, 0⟩ 0 10).1.mean = 5 ∧
    (length_feature_step ⟨0, 0, 0⟩ 0 10).2 = Real.sqrt 2 / 2 ∧
    (welford_step ⟨0, 0, 0⟩ 10).mean = 10 ∧
    welford_std (welford_step ⟨0, 0, 0⟩ 10) = 0 ∧
    Real.sqrt 2 / 2 ≠ 10 := by
  refine ⟨by rw [step_one], by rw [step_one], ?_, ?_, sqrt_two_half_ne_ten⟩
  · unfold welford_step
    norm_num
  · unfold welford_std welford_step
    norm_num

/-- Claim C4 counterexample: on the synthetic length delta sequence 10, -10, 0
from fresh statistics, the first normalized feature computed by the code is
sqrt 2 / 2, not the claimed fallback value 10. -/
theorem normalized_lengths_counterexample :
    (normalized_lengths [10, -10, 0]).getD 0 0 = Real.sqrt 2 / 2 ∧
    (normalized_lengths [10, -10, 0]).getD 0 0 ≠ 10 := by
  have h : (normalized_lengths [10, -10, 0]).getD 0 0 = Real.sqrt 2 / 2 := by
    simp only [normalized_lengths, normalized_lengths_from, step_one]
    rfl
  exact ⟨h, by rw [h]; exact sqrt_two_half_ne_ten⟩

/-- Claim C4 amended: on the synthetic length delta sequence 10, -10, 0 from
fresh statistics, the computed normalized-length sequence equals
sqrt 2 / 2, sqrt 3 / 3, minus sqrt 3 / 2 (about 0.707, 0.577, -0.866), the
closed form of the recurrence the code actually runs with its doubly
incremented count. -/
theorem normalized_lengths_example :
    normalized_lengths [10, -10, 0] =
      [Real.sqrt 2 / 2, Real.sqrt 3 / 3, -(Real.sqrt 3 / 2)] := by
  simp only [normalized_lengths, normalized_lengths_from, step_one, step_two, step_three]
